import Mathlib

/-!
# Verification of the pty-mcp terminal core

Shallow embedding of the terminal session, cell-grid extractor, color
resolver, rasterizer and protocol-adapter input unescaping of the
`pty-mcp` repository (src/terminal.ts, src/renderer.ts, server tool
layer), together with theorems settling the frozen specification claims.

The escape-sequence interpreter (`@xterm/headless`) and the PTY spawner
are external collaborators: they are modelled abstractly (a buffer is a
partial map from row index to a line, a line a partial map from column
index to a cell), exactly at the granularity the source code reads them.
JavaScript numbers appearing in the renderer are modelled as exact
rationals.
-/

namespace PtyMcp

/-! ## Color resolver (src/terminal.ts) -/

/-- Hex digit character, lowercase, as produced by JavaScript
`Number.prototype.toString(16)`. -/
def hexDigitChar (n : Nat) : Char :=
  if n < 10 then Char.ofNat (48 + n) else Char.ofNat (87 + n)

/-- Two-digit lowercase hex rendering of a byte, as produced by
`v.toString(16).padStart(2, "0")` for `v < 256`. -/
def toHex2 (n : Nat) : String :=
  String.mk [hexDigitChar ((n / 16) % 16), hexDigitChar (n % 16)]

/-- `"#rrggbb"` color string from three byte channels. -/
def hexColor (r g b : Nat) : String :=
  "#" ++ toHex2 r ++ toHex2 g ++ toHex2 b

/-- The 6-level stops of the 256-color cube (`levels` array in the source). -/
def levels (i : Nat) : Nat := [0, 95, 135, 175, 215, 255].getD i 0

/-- `PALETTE_256` from src/terminal.ts: the 16 standard colors, then the
6×6×6 cube (r outermost, b innermost), then 24 grayscale entries. -/
def PALETTE_256 : List String :=
  ["#000000", "#cd0000", "#00cd00", "#cdcd00", "#0000ee", "#cd00cd", "#00cdcd", "#e5e5e5",
   "#7f7f7f", "#ff0000", "#00ff00", "#ffff00", "#5c5cff", "#ff00ff", "#00ffff", "#ffffff"]
  ++ ((List.range 6).flatMap fun r =>
      (List.range 6).flatMap fun g =>
      (List.range 6).map fun b =>
        "#" ++ toHex2 (levels r) ++ toHex2 (levels g) ++ toHex2 (levels b))
  ++ ((List.range 24).map fun i =>
        let v := 8 + i * 10
        "#" ++ toHex2 v ++ toHex2 v ++ toHex2 v)

/-- A raw cell as read from the interpreter's buffer (the `ICellData`
surface the source consumes: `getChars`, per-channel color mode flags and
color value, and numeric style-bit accessors compared against `1`). -/
structure XCell where
  chars : String
  fgDefault : Bool
  fgPalette : Bool
  fgRGB : Bool
  fgColor : Int
  bgDefault : Bool
  bgPalette : Bool
  bgRGB : Bool
  bgColor : Int
  bold : Nat
  italic : Nat
  dim : Nat
  underline : Nat
  strikethrough : Nat
  inverse : Nat
  deriving Repr, DecidableEq

/-- The two color channels. -/
inductive Chan | fg | bg
  deriving Repr, DecidableEq

/-- `resolveColor` from src/terminal.ts.  The cell argument is optional
because the source guards `if (!cell)` first. -/
def resolveColor (cell : Option XCell) (type : Chan) : String :=
  match cell with
  | none => match type with | .fg => "#c0c0c0" | .bg => "#000000"
  | some c =>
    let isDefault := match type with | .fg => c.fgDefault | .bg => c.bgDefault
    let isPalette := match type with | .fg => c.fgPalette | .bg => c.bgPalette
    let isRGB := match type with | .fg => c.fgRGB | .bg => c.bgRGB
    let color : Int := match type with | .fg => c.fgColor | .bg => c.bgColor
    if isDefault then (match type with | .fg => "#c0c0c0" | .bg => "#1e1e1e")
    else if isPalette then
      ((if color < 0 then none else PALETTE_256.get? color.toNat).getD
        (match type with | .fg => "#c0c0c0" | .bg => "#1e1e1e"))
    else if isRGB then
      let n := color.toNat
      "#" ++ toHex2 ((n >>> 16) &&& 255) ++ toHex2 ((n >>> 8) &&& 255) ++ toHex2 (n &&& 255)
    else (match type with | .fg => "#c0c0c0" | .bg => "#1e1e1e")

/-- The standard ANSI 16-color values named by the specification
(spec-side table, written independently of `PALETTE_256`). -/
def ansiStandard16 : List String :=
  ["#000000", "#cd0000", "#00cd00", "#cdcd00", "#0000ee", "#cd00cd", "#00cdcd", "#e5e5e5",
   "#7f7f7f", "#ff0000", "#00ff00", "#ffff00", "#5c5cff", "#ff00ff", "#00ffff", "#ffffff"]

/-- Spec-side palette description: the value the specification assigns to
index `i` — standard 16, then the 6×6×6 cube at `16 + 36r + 6g + b` with
level stops `{0,95,135,175,215,255}`, then 24 grayscale steps starting at
8 stepping by 10. -/
def paletteSpec (i : Nat) : String :=
  if i < 16 then ansiStandard16.getD i ""
  else if i ≤ 231 then
    let k := i - 16
    hexColor (levels (k / 36)) (levels ((k / 6) % 6)) (levels (k % 6))
  else
    hexColor (8 + 10 * (i - 232)) (8 + 10 * (i - 232)) (8 + 10 * (i - 232))

/-- `PALETTE_256` agrees pointwise with the specification's indexing
scheme.  Core refinement behind claim C2. -/
theorem palette_eq_spec : PALETTE_256 = (List.range 256).map paletteSpec := by
  set_option maxRecDepth 10000 in decide

theorem palette_length : PALETTE_256.length = 256 := by
  rw [palette_eq_spec]; simp

/-- C2: resolving `PaletteIndex(i)` for `i ∈ 0..255` on either channel
yields the fixed 256-entry table, whose entries are: the standard ANSI
16 colors at 0–15, the 6×6×6 cube with level stops {0,95,135,175,215,255}
at `16 + 36r + 6g + b` (index 196 being the fixed value `#ff0000`), and
the 24 grayscale steps `8 + 10k` (hence R=G=B) at 232–255; out-of-range
indices fall back to the channel's default color. -/
theorem resolveColor_palette_spec :
    PALETTE_256 = (List.range 256).map paletteSpec
    ∧ (∀ c : XCell, c.fgDefault = false → c.fgPalette = true →
        0 ≤ c.fgColor → c.fgColor < 256 →
        resolveColor (some c) .fg = paletteSpec c.fgColor.toNat)
    ∧ (∀ c : XCell, c.bgDefault = false → c.bgPalette = true →
        0 ≤ c.bgColor → c.bgColor < 256 →
        resolveColor (some c) .bg = paletteSpec c.bgColor.toNat)
    ∧ (∀ r g b : Nat, r < 6 → g < 6 → b < 6 →
        PALETTE_256.getD (16 + 36 * r + 6 * g + b) "" =
          hexColor (levels r) (levels g) (levels b))
    ∧ PALETTE_256.getD 196 "" = "#ff0000"
    ∧ (∀ i : Nat, 232 ≤ i → i < 256 →
        paletteSpec i =
          hexColor (8 + 10 * (i - 232)) (8 + 10 * (i - 232)) (8 + 10 * (i - 232)))
    ∧ (∀ c : XCell, c.fgDefault = false → c.fgPalette = true →
        (c.fgColor < 0 ∨ 256 ≤ c.fgColor) → resolveColor (some c) .fg = "#c0c0c0")
    ∧ (∀ c : XCell, c.bgDefault = false → c.bgPalette = true →
        (c.bgColor < 0 ∨ 256 ≤ c.bgColor) → resolveColor (some c) .bg = "#1e1e1e") := by
  have hget : ∀ i : Nat, i < 256 → PALETTE_256.get? i = some (paletteSpec i) := by
    intro i hi
    rw [palette_eq_spec]
    rw [List.get?_eq_getElem?]
    simp [hi]
  refine ⟨palette_eq_spec, ?_, ?_, ?_, ?_, ?_, ?_, ?_⟩
  · intro c hdef hpal h0 h256
    simp only [resolveColor, hdef, hpal, if_false, if_true, Bool.false_eq_true,
      if_neg (by omega : ¬ c.fgColor < 0)]
    rw [hget c.fgColor.toNat (by omega)]
    rfl
  · intro c hdef hpal h0 h256
    simp only [resolveColor, hdef, hpal, if_false, if_true, Bool.false_eq_true,
      if_neg (by omega : ¬ c.bgColor < 0)]
    rw [hget c.bgColor.toNat (by omega)]
    rfl
  · intro r g b hr hg hb
    have hi : 16 + 36 * r + 6 * g + b < 256 := by omega
    have := hget (16 + 36 * r + 6 * g + b) hi
    rw [List.getD_eq_getElem?_getD, ← List.get?_eq_getElem?, this]
    have h16 : ¬ (16 + 36 * r + 6 * g + b < 16) := by omega
    have h231 : 16 + 36 * r + 6 * g + b ≤ 231 := by omega
    simp only [paletteSpec, if_neg h16, if_pos h231, Option.getD_some]
    have e1 : (16 + 36 * r + 6 * g + b - 16) / 36 = r := by omega
    have e2 : ((16 + 36 * r + 6 * g + b - 16) / 6) % 6 = g := by omega
    have e3 : (16 + 36 * r + 6 * g + b - 16) % 6 = b := by omega
    rw [e1, e2, e3]
  · rw [List.getD_eq_getElem?_getD, ← List.get?_eq_getElem?, hget 196 (by omega)]
    decide
  · intro i h232 h256
    have h16 : ¬ (i < 16) := by omega
    have h231 : ¬ (i ≤ 231) := by omega
    simp [paletteSpec, h16, h231]
  · intro c hdef hpal hout
    simp only [resolveColor, hdef, hpal, Bool.false_eq_true, if_false, if_true]
    rcases hout with hneg | hbig
    · simp [hneg]
    · rw [if_neg (by omega : ¬ c.fgColor < 0)]
      rw [List.get?_eq_none.mpr (by rw [palette_length]; omega)]
      rfl
  · intro c hdef hpal hout
    simp only [resolveColor, hdef, hpal, Bool.false_eq_true, if_false, if_true]
    rcases hout with hneg | hbig
    · simp [hneg]
    · rw [if_neg (by omega : ¬ c.bgColor < 0)]
      rw [List.get?_eq_none.mpr (by rw [palette_length]; omega)]
      rfl

/-- A concrete cell carrying palette index 300 on both channels. -/
def outOfRangeCell : XCell :=
  { chars := "A", fgDefault := false, fgPalette := true, fgRGB := false, fgColor := 300,
    bgDefault := false, bgPalette := true, bgRGB := false, bgColor := 300,
    bold := 0, italic := 0, dim := 0, underline := 0, strikethrough := 0, inverse := 0 }

/-- Witness for `resolveColor_palette_spec` at concrete inputs: the cube
entry at (r,g,b) = (5,0,0) (index 196), a grayscale index, and the
out-of-range fallback at index 300. -/
theorem resolveColor_palette_spec_witness :
    PALETTE_256.getD (16 + 36 * 5 + 6 * 0 + 0) "" = hexColor (levels 5) (levels 0) (levels 0)
    ∧ paletteSpec 240 = hexColor 88 88 88
    ∧ resolveColor (some outOfRangeCell) .fg = "#c0c0c0"
    ∧ resolveColor (some outOfRangeCell) .bg = "#1e1e1e" := by
  refine ⟨resolveColor_palette_spec.2.2.2.1 5 0 0 (by decide) (by decide) (by decide),
    ?_, ?_, ?_⟩
  · have := resolveColor_palette_spec.2.2.2.2.2.1 240 (by decide) (by decide)
    simpa using this
  · exact resolveColor_palette_spec.2.2.2.2.2.2.1 outOfRangeCell rfl rfl
      (Or.inr (by decide))
  · exact resolveColor_palette_spec.2.2.2.2.2.2.2 outOfRangeCell rfl rfl
      (Or.inr (by decide))

/-! ## Cell grid extractor and text snapshot (src/terminal.ts) -/

/-- A buffer line as the source consumes it: `getCell(x)` (possibly
absent) and `translateToString(trimRight)`.  Both belong to the external
interpreter; only their signatures are relied upon. -/
structure XLine where
  getCell : Nat → Option XCell
  translateToString : Bool → String

/-- The interpreter's active buffer as the source consumes it:
`getLine(y)`, possibly absent (e.g. after the live buffer shrank below
the session's construction rows). -/
structure XBuffer where
  getLine : Nat → Option XLine

/-- `CellInfo` from src/terminal.ts. -/
structure CellInfo where
  char : String
  fg : String
  bg : String
  bold : Bool
  italic : Bool
  dim : Bool
  underline : Bool
  strikethrough : Bool
  inverse : Bool
  deriving Repr, DecidableEq

/-- The record pushed per present cell inside `getCellGrid`
(`cell.getChars() || " "` yields a space exactly when `getChars()` is
the empty string, which is falsy in JavaScript). -/
def cellInfoOf (c : XCell) : CellInfo :=
  { char := if c.chars = "" then " " else c.chars
    fg := resolveColor (some c) .fg
    bg := resolveColor (some c) .bg
    bold := c.bold == 1
    italic := c.italic == 1
    dim := c.dim == 1
    underline := c.underline == 1
    strikethrough := c.strikethrough == 1
    inverse := c.inverse == 1 }

/-- `getCellGrid` from src/terminal.ts: for each `y < rows` push a row;
if the line is absent the row stays empty, and within a present line only
present cells are pushed (absent cells are skipped, not blank-filled). -/
def getCellGrid (buf : XBuffer) (cols rows : Nat) : List (List CellInfo) :=
  (List.range rows).map fun y =>
    match buf.getLine y with
    | none => []
    | some line => (List.range cols).filterMap fun x => (line.getCell x).map cellInfoOf

/-- `getText` from src/terminal.ts: push `translateToString(true)` for
each present line among `y < rows`, then join with newlines (absent
lines are skipped, so fewer than `rows` lines may result). -/
def getText (buf : XBuffer) (rows : Nat) : String :=
  String.intercalate "\n"
    ((List.range rows).filterMap fun y =>
      (buf.getLine y).map fun l => l.translateToString true)

/-- A buffer in which the interpreter reports no line at all. -/
def emptyBuffer : XBuffer := ⟨fun _ => none⟩

theorem getD_map_range {α : Type} (f : Nat → α) (d : α) {y n : Nat} (h : y < n) :
    ((List.range n).map f).getD y d = f y := by
  rw [List.getD_eq_getElem?_getD, List.getElem?_map, List.getElem?_range h]
  rfl

theorem length_filterMap_eq_length_filter {α β : Type} (l : List α) (f : α → Option β) :
    (l.filterMap f).length = (l.filter fun a => (f a).isSome).length := by
  induction l with
  | nil => rfl
  | cons a l ih =>
    rw [List.filterMap_cons, List.filter_cons]
    cases h : f a <;> simp [h, ih]

theorem filterMap_eq_map_of_isSome {α β : Type} (l : List α) (f : α → Option β) (d : β)
    (h : ∀ a ∈ l, (f a).isSome = true) :
    l.filterMap f = l.map fun a => (f a).getD d := by
  induction l with
  | nil => rfl
  | cons a l ih =>
    rw [List.filterMap_cons, List.map_cons]
    have ha := h a (by simp)
    cases hfa : f a with
    | none => rw [hfa] at ha; simp at ha
    | some b => simp [hfa, ih fun a ha => h a (by simp [ha])]

/-- C1 counterexample: with a buffer reporting no line (reachable, e.g.,
after the live interpreter buffer shrank below the construction rows),
`getCellGrid` at cols = 2, rows = 1 yields one empty row — the missing
positions are not filled with blank records, so the row length is 0, not
`cols`. -/
theorem getCellGrid_blank_fill_cex :
    getCellGrid emptyBuffer 2 1 = [[]]
    ∧ ((getCellGrid emptyBuffer 2 1).getD 0 []).length = 0
    ∧ (((getCellGrid emptyBuffer 2 1).getD 0 []).length == 2) = false := by
  refine ⟨by decide, by decide, by decide⟩

/-- C1 amended: `getCellGrid` always returns exactly `rows` rows; a row
whose line the interpreter does not report is empty; within a reported
line, exactly the positions `x < cols` whose cell is reported produce a
record (missing cells are skipped, not blank-filled); when the
interpreter reports every line and every cell the grid is exactly
`rows × cols`. -/
theorem getCellGrid_shape :
    ∀ (buf : XBuffer) (cols rows : Nat),
      (getCellGrid buf cols rows).length = rows
      ∧ (∀ y, y < rows → buf.getLine y = none →
          (getCellGrid buf cols rows).getD y [] = [])
      ∧ (∀ y line, y < rows → buf.getLine y = some line →
          ((getCellGrid buf cols rows).getD y []).length
            = ((List.range cols).filter fun x => (line.getCell x).isSome).length)
      ∧ (∀ y line, y < rows → buf.getLine y = some line →
          (∀ x, x < cols → (line.getCell x).isSome = true) →
          ((getCellGrid buf cols rows).getD y []).length = cols) := by
  intro buf cols rows
  have hrow : ∀ y line, y < rows → buf.getLine y = some line →
      (getCellGrid buf cols rows).getD y []
        = (List.range cols).filterMap fun x => (line.getCell x).map cellInfoOf := by
    intro y line hy hline
    rw [getCellGrid, getD_map_range _ _ hy, hline]
  refine ⟨by simp [getCellGrid], ?_, ?_, ?_⟩
  · intro y hy hnone
    rw [getCellGrid, getD_map_range _ _ hy, hnone]
  · intro y line hy hline
    rw [hrow y line hy hline, length_filterMap_eq_length_filter]
    simp [Option.isSome_map']
  · intro y line hy hline hall
    rw [hrow y line hy hline]
    rw [filterMap_eq_map_of_isSome _ _ (cellInfoOf outOfRangeCell)
      (fun x hx => by
        rw [Option.isSome_map']
        exact hall x (List.mem_range.mp hx))]
    simp

/-- A line with a cell at every position. -/
def fullLine : XLine := ⟨fun _ => some outOfRangeCell, fun _ => "A"⟩

/-- A buffer with a line at every row. -/
def fullBuffer : XBuffer := ⟨fun _ => some fullLine⟩

/-- Witness for `getCellGrid_shape`: on a fully-reported 2×1 buffer the
single row has exactly 2 cells. -/
theorem getCellGrid_shape_witness :
    ((getCellGrid fullBuffer 2 1).getD 0 []).length = 2 :=
  (getCellGrid_shape fullBuffer 2 1).2.2.2 0 fullLine (by decide) rfl
    (fun x hx => rfl)

/-- C4 counterexample: with a buffer reporting no line, `getText` at
rows = 2 returns the empty string (length 0), while the newline-join of
any two lines contains at least the separator — even the shortest such
join, of two empty lines, has length 1. -/
theorem getText_exact_rows_cex :
    getText emptyBuffer 2 = ""
    ∧ (getText emptyBuffer 2).length = 0
    ∧ ((String.intercalate "\n" ["", ""]).length == 0) = false := by
  refine ⟨by decide, by decide, by decide⟩

/-- C4 amended: `getText` joins with newlines the `translateToString
true` renderings (the interpreter's trailing-blank-trimmed row text) of
exactly those rows `y < rows` whose line the interpreter reports; when
every line is reported, it is the join of exactly `rows` lines, line `y`
being the trimmed text of row `y`. -/
theorem getText_lines :
    ∀ (buf : XBuffer) (rows : Nat),
      ((List.range rows).filterMap fun y =>
          (buf.getLine y).map fun l => l.translateToString true).length ≤ rows
      ∧ ((∀ y, y < rows → (buf.getLine y).isSome = true) →
          getText buf rows = String.intercalate "\n"
            ((List.range rows).map fun y =>
              ((buf.getLine y).map fun l => l.translateToString true).getD "")) := by
  intro buf rows
  constructor
  · calc ((List.range rows).filterMap fun y =>
          (buf.getLine y).map fun l => l.translateToString true).length
        ≤ (List.range rows).length := List.length_filterMap_le _ _
      _ = rows := List.length_range rows
  · intro hall
    rw [getText, filterMap_eq_map_of_isSome _ _ ""
      (fun y hy => by
        rw [Option.isSome_map']
        exact hall y (List.mem_range.mp hy))]

/-- A concrete two-line buffer. -/
def twoLineBuffer : XBuffer :=
  ⟨fun y =>
    if y = 0 then some ⟨fun _ => none, fun _ => "hello"⟩
    else if y = 1 then some ⟨fun _ => none, fun _ => "world"⟩
    else none⟩

/-- Witness for `getText_lines`: on a buffer reporting both lines of a
2-row window, `getText` is the newline-join of the two line texts. -/
theorem getText_lines_witness : getText twoLineBuffer 2 = "hello\nworld" := by
  have h := (getText_lines twoLineBuffer 2).2 (by decide)
  rw [h]
  decide

/-! ## Terminal session lifecycle (src/terminal.ts) -/

/-- The state the session keeps about its PTY handle (an external
collaborator): last dimensions forwarded and bytes written, in order. -/
structure PtySt where
  ptyCols : Nat
  ptyRows : Nat
  written : List String

/-- The `HeadlessTerminal` state: nullable PTY handle, the interpreter
instance's current size, write-once exit bookkeeping, the shared exit
future (null until spawn), and the read-only construction dimensions. -/
structure HeadlessTerminal where
  pty : Option PtySt
  xtermCols : Nat
  xtermRows : Nat
  exited : Bool
  exitCode : Option Int
  exitPromise : Option Unit
  cols : Nat
  rows : Nat

/-- Session-level failures surfaced synchronously. -/
inductive TermErr
  | notSpawned
  deriving Repr, DecidableEq

/-- The `HeadlessTerminal` constructor: dimensions default to 80×24, no
PTY, no exit future. -/
def HeadlessTerminal.create (colsOpt rowsOpt : Option Nat) : HeadlessTerminal :=
  let cols := colsOpt.getD 80
  let rows := rowsOpt.getD 24
  { pty := none, xtermCols := cols, xtermRows := rows, exited := false,
    exitCode := none, exitPromise := none, cols := cols, rows := rows }

/-- `spawn`'s effect on session state: installs a PTY sized to the
construction dimensions and the single shared exit future. -/
def HeadlessTerminal.spawn (t : HeadlessTerminal) : HeadlessTerminal :=
  { t with pty := some { ptyCols := t.cols, ptyRows := t.rows, written := [] },
           exitPromise := some () }

/-- `write` from src/terminal.ts: throws `Terminal not spawned` when no
PTY exists, otherwise forwards the bytes verbatim to the PTY. -/
def HeadlessTerminal.write (t : HeadlessTerminal) (data : String) :
    Except TermErr HeadlessTerminal :=
  match t.pty with
  | none => .error .notSpawned
  | some p => .ok { t with pty := some { p with written := p.written ++ [data] } }

/-- `resize` from src/terminal.ts: never throws; forwards to the PTY only
when one exists (`if (this.pty)`), and always resizes the interpreter's
buffer. -/
def HeadlessTerminal.resize (t : HeadlessTerminal) (cols rows : Nat) :
    Except TermErr HeadlessTerminal :=
  let t1 := match t.pty with
    | none => t
    | some p => { t with pty := some { p with ptyCols := cols, ptyRows := rows } }
  .ok { t1 with xtermCols := cols, xtermRows := rows }

/-- `waitForExit` from src/terminal.ts: throws `Terminal not spawned`
when no exit future was installed, otherwise returns the shared future. -/
def HeadlessTerminal.waitForExit (t : HeadlessTerminal) : Except TermErr Unit :=
  match t.exitPromise with
  | none => .error .notSpawned
  | some f => .ok f

/-- C5: on a session whose spawn never ran (no PTY handle, no exit
future), `write` fails synchronously with NotSpawned for every payload,
and so does `waitForExit`. -/
theorem write_waitForExit_notSpawned :
    ∀ (t : HeadlessTerminal) (data : String),
      t.pty = none → t.exitPromise = none →
      t.write data = .error .notSpawned ∧ t.waitForExit = .error .notSpawned := by
  intro t data hp he
  constructor
  · rw [HeadlessTerminal.write, hp]
  · rw [HeadlessTerminal.waitForExit, he]

/-- Witness for `write_waitForExit_notSpawned` at the freshly-constructed
default session. -/
theorem write_waitForExit_notSpawned_witness :
    (HeadlessTerminal.create none none).write "hi" = .error .notSpawned
    ∧ (HeadlessTerminal.create none none).waitForExit = .error .notSpawned :=
  write_waitForExit_notSpawned (HeadlessTerminal.create none none) "hi" rfl rfl

/-- Whether a session operation failed. -/
def resultIsError {ε α : Type} : Except ε α → Bool
  | .error _ => true
  | .ok _ => false

/-- C6 counterexample: on a never-spawned session, `resize` does not
fail with NotSpawned — it succeeds, resizing the interpreter's buffer
while leaving the (absent) PTY untouched. -/
theorem resize_created_cex :
    (HeadlessTerminal.create none none).resize 10 10
      = .ok { HeadlessTerminal.create none none with xtermCols := 10, xtermRows := 10 }
    ∧ resultIsError ((HeadlessTerminal.create none none).resize 10 10) = false :=
  ⟨rfl, rfl⟩

/-- C6 amended: in the Created state `resize` never fails: the PTY
resize is silently skipped (the session still has no PTY) and the
interpreter's own buffer is resized to the new dimensions. -/
theorem resize_created :
    ∀ (colsOpt rowsOpt : Option Nat) (c r : Nat),
      (HeadlessTerminal.create colsOpt rowsOpt).resize c r
        = .ok { HeadlessTerminal.create colsOpt rowsOpt with
                  xtermCols := c, xtermRows := r } := by
  intro colsOpt rowsOpt c r
  rfl

/-! ## Rasterizer (src/renderer.ts)

JavaScript numbers are modelled as exact rationals; the canvas context
is modelled as the list of drawing commands issued to it, in order. -/

/-- `RenderOptions` after merging with `DEFAULT_OPTIONS`
(`{ ...DEFAULT_OPTIONS, ...options }` in the source). -/
structure RenderOptions where
  fontSize : ℚ
  fontFamily : String
  cellWidth : ℚ
  cellHeight : ℚ
  padding : ℚ

/-- `DEFAULT_OPTIONS` from src/renderer.ts. -/
def DEFAULT_OPTIONS : RenderOptions :=
  { fontSize := 14, fontFamily := "monospace", cellWidth := 8.4, cellHeight := 18,
    padding := 8 }

/-- Value of one hex digit character (`parseInt` base-16 digit). -/
def hexDigitVal (c : Char) : Nat :=
  if 48 ≤ c.toNat ∧ c.toNat ≤ 57 then c.toNat - 48
  else if 97 ≤ c.toNat ∧ c.toNat ≤ 102 then c.toNat - 87
  else if 65 ≤ c.toNat ∧ c.toNat ≤ 70 then c.toNat - 55
  else 0

/-- `parseInt(hex.slice(i, i+2), 16)` for the two-hex-digit slices of a
`#rrggbb` string. -/
def hexPairAt (s : String) (i : Nat) : Nat :=
  16 * hexDigitVal (s.toList.getD i '0') + hexDigitVal (s.toList.getD (i + 1) '0')

/-- `dimColor` from src/renderer.ts.  `Math.round(v * 0.5)` on a byte
value `v` equals `(v + 1) / 2` in integer arithmetic (JavaScript
`Math.round` rounds halves up). -/
def dimColor (hex : String) : String :=
  let r := (hexPairAt hex 1 + 1) / 2
  let g := (hexPairAt hex 3 + 1) / 2
  let b := (hexPairAt hex 5 + 1) / 2
  "#" ++ toHex2 r ++ toHex2 g ++ toHex2 b

/-- The font state set before `fillText` (`ctx.font` string contents,
kept structured). -/
structure FontSpec where
  bold : Bool
  italic : Bool
  size : ℚ
  family : String
  deriving DecidableEq

/-- One drawing command issued to the canvas context. -/
inductive DrawCmd
  | fillRect (color : String) (x y w h : ℚ)
  | fillText (font : FontSpec) (color : String) (text : String) (x y : ℚ)
  | strokeLine (color : String) (lineWidth x1 y1 x2 y2 : ℚ)
  deriving DecidableEq

/-- The commands the renderer body issues for the cell at column `x`,
row `y` (src/renderer.ts lines 42–84): inverse swap of fg/bg, background
rectangle when not the canvas default, glyph with bold/italic font and
possibly dimmed fill, then underline and strikethrough rules. -/
def renderCell (opts : RenderOptions) (y x : Nat) (cell : CellInfo) : List DrawCmd :=
  let px := opts.padding + (x : ℚ) * opts.cellWidth
  let py := opts.padding + (y : ℚ) * opts.cellHeight
  let fg := if cell.inverse then cell.bg else cell.fg
  let bg := if cell.inverse then cell.fg else cell.bg
  (if bg ≠ "#1e1e1e" then [.fillRect bg px py opts.cellWidth opts.cellHeight] else [])
  ++ (if cell.char ≠ "" ∧ cell.char ≠ " " then
        [.fillText ⟨cell.bold, cell.italic, opts.fontSize, opts.fontFamily⟩
          (if cell.dim then dimColor fg else fg) cell.char px (py + 2)]
      else [])
  ++ (if cell.underline then
        [.strokeLine fg 1 px (py + opts.cellHeight - 2)
          (px + opts.cellWidth) (py + opts.cellHeight - 2)]
      else [])
  ++ (if cell.strikethrough then
        [.strokeLine fg 1 px (py + opts.cellHeight / 2)
          (px + opts.cellWidth) (py + opts.cellHeight / 2)]
      else [])

/-- The produced image: canvas dimensions and the command list. -/
structure RenderOut where
  width : Int
  height : Int
  cmds : List DrawCmd
  deriving DecidableEq

/-- `renderToPng` from src/renderer.ts: canvas sized by the ceil
formulas, full-canvas background fill, then the cell loop bounded both
by `rows`/`cols` and by the actual grid/row lengths
(`y < rows && y < grid.length`, `x < cols && x < row.length`). -/
def renderToPng (grid : List (List CellInfo)) (cols rows : Nat)
    (opts : RenderOptions) : RenderOut :=
  let width := Int.ceil ((cols : ℚ) * opts.cellWidth + opts.padding * 2)
  let height := Int.ceil ((rows : ℚ) * opts.cellHeight + opts.padding * 2)
  { width := width, height := height,
    cmds := .fillRect "#1e1e1e" 0 0 (width : ℚ) (height : ℚ)
      :: ((List.range (min rows grid.length)).flatMap fun y =>
            let row := grid.getD y []
            (List.range (min cols row.length)).flatMap fun x =>
              renderCell opts y x (row.getD x (cellInfoOf outOfRangeCell))) }

/-- The fixed 8-byte signature of the lossless raster format. -/
def pngSignature : List Nat := [137, 80, 78, 71, 13, 10, 26, 10]

/-- Modelled from the spec: the external image encoder
(`canvas.toBuffer("image/png")`, provided by the canvas library, not
part of this repository).  The spec requires a lossless raster format
carrying a fixed 8-byte magic signature at offset 0; it is modelled as
that signature followed by four bytes per canvas pixel, so the encoded
length is `8 + 4 · width · height`. -/
def encodeImage (img : RenderOut) : List Nat :=
  pngSignature ++ List.replicate (4 * img.width.toNat * img.height.toNat) 0

/-- The blank cell of the repository's renderer tests (`makeCell()`):
space character, default colors, no attributes. -/
def blankCellInfo : CellInfo :=
  { char := " ", fg := "#c0c0c0", bg := "#1e1e1e", bold := false, italic := false,
    dim := false, underline := false, strikethrough := false, inverse := false }

/-- An all-blank `cols × rows` grid (`makeGrid` in the renderer tests). -/
def blankGrid (cols rows : Nat) : List (List CellInfo) :=
  List.replicate rows (List.replicate cols blankCellInfo)

/-- C7: the rasterizer computes the effective foreground/background by
swapping the cell's resolved colors exactly when the inverse flag is
set, applied once per cell: a cell drawn with `inverse` set produces the
same commands as the pre-swapped cell with the flag cleared (a second
swap anywhere would break this equality), while the Color Resolver is
entirely independent of the inverse flag. -/
theorem inverse_swap_once_in_rasterizer :
    (∀ (opts : RenderOptions) (y x : Nat) (cell : CellInfo),
        renderCell opts y x { cell with inverse := true }
          = renderCell opts y x
              { cell with fg := cell.bg, bg := cell.fg, inverse := false })
    ∧ (∀ (opts : RenderOptions) (y x : Nat) (cell : CellInfo),
        renderCell opts y x { cell with inverse := false } = renderCell opts y x cell
          ∨ cell.inverse = true)
    ∧ (∀ (c : XCell) (v : Nat) (ch : Chan),
        resolveColor (some { c with inverse := v }) ch = resolveColor (some c) ch) := by
  refine ⟨fun opts y x cell => rfl, ?_, fun c v ch => rfl⟩
  intro opts y x cell
  cases h : cell.inverse
  · left
    rw [show { cell with inverse := false } = cell by cases cell; simp_all]
  · right
    rfl

/-- C8: the canvas is exactly `⌈cols·cellWidth + 2·padding⌉` wide and
`⌈rows·cellHeight + 2·padding⌉` tall, and with the default configuration
the encoded output of the blank 120×40 grid B is strictly longer than
that of the blank 10×5 grid A (the external encoder being modelled as a
lossless raster of the canvas: signature plus four bytes per pixel). -/
theorem renderToPng_canvas_size :
    (∀ (grid : List (List CellInfo)) (cols rows : Nat) (opts : RenderOptions),
        (renderToPng grid cols rows opts).width
            = Int.ceil ((cols : ℚ) * opts.cellWidth + 2 * opts.padding)
        ∧ (renderToPng grid cols rows opts).height
            = Int.ceil ((rows : ℚ) * opts.cellHeight + 2 * opts.padding))
    ∧ (encodeImage (renderToPng (blankGrid 120 40) 120 40 DEFAULT_OPTIONS)).length
        > (encodeImage (renderToPng (blankGrid 10 5) 10 5 DEFAULT_OPTIONS)).length := by
  constructor
  · intro grid cols rows opts
    constructor
    · exact congrArg Int.ceil (by ring)
    · exact congrArg Int.ceil (by ring)
  · have h1 : (renderToPng (blankGrid 120 40) 120 40 DEFAULT_OPTIONS).width = 1024 := by
      show Int.ceil ((120 : ℚ) * (8.4 : ℚ) + (8 : ℚ) * 2) = 1024
      norm_num
    have h2 : (renderToPng (blankGrid 120 40) 120 40 DEFAULT_OPTIONS).height = 736 := by
      show Int.ceil ((40 : ℚ) * (18 : ℚ) + (8 : ℚ) * 2) = 736
      norm_num
    have h3 : (renderToPng (blankGrid 10 5) 10 5 DEFAULT_OPTIONS).width = 100 := by
      show Int.ceil ((10 : ℚ) * (8.4 : ℚ) + (8 : ℚ) * 2) = 100
      norm_num
    have h4 : (renderToPng (blankGrid 10 5) 10 5 DEFAULT_OPTIONS).height = 106 := by
      show Int.ceil ((5 : ℚ) * (18 : ℚ) + (8 : ℚ) * 2) = 106
      norm_num
    simp only [encodeImage, List.length_append, List.length_replicate, h1, h2, h3, h4]
    decide

/-- C9: on an empty grid (`cols = 0` or `rows = 0`, including the empty
row list) rendering with the default configuration succeeds and yields
the minimal `⌈2·padding⌉ = 16`-pixel extent on the degenerate axis, at
least that on the other, and a non-empty encoding. -/
theorem renderToPng_empty_grid :
    ∀ (grid : List (List CellInfo)) (cols rows : Nat),
      (cols = 0 → (renderToPng grid cols rows DEFAULT_OPTIONS).width = 16)
      ∧ (rows = 0 → (renderToPng grid cols rows DEFAULT_OPTIONS).height = 16)
      ∧ 16 ≤ (renderToPng grid cols rows DEFAULT_OPTIONS).width
      ∧ 16 ≤ (renderToPng grid cols rows DEFAULT_OPTIONS).height
      ∧ 0 < (encodeImage (renderToPng grid cols rows DEFAULT_OPTIONS)).length := by
  intro grid cols rows
  have hw : (renderToPng grid cols rows DEFAULT_OPTIONS).width
      = Int.ceil ((cols : ℚ) * (8.4 : ℚ) + (8 : ℚ) * 2) := rfl
  have hh : (renderToPng grid cols rows DEFAULT_OPTIONS).height
      = Int.ceil ((rows : ℚ) * (18 : ℚ) + (8 : ℚ) * 2) := rfl
  refine ⟨?_, ?_, ?_, ?_, ?_⟩
  · intro h
    subst h
    rw [hw]
    norm_num
  · intro h
    subst h
    rw [hh]
    norm_num
  · rw [hw]
    have hq : (16 : ℚ) ≤ (cols : ℚ) * (8.4 : ℚ) + (8 : ℚ) * 2 := by
      have : (0 : ℚ) ≤ (cols : ℚ) * (8.4 : ℚ) := by positivity
      linarith
    calc (16 : ℤ) = Int.ceil ((16 : ℚ)) := by norm_num
      _ ≤ _ := Int.ceil_le_ceil hq
  · rw [hh]
    have hq : (16 : ℚ) ≤ (rows : ℚ) * (18 : ℚ) + (8 : ℚ) * 2 := by
      have : (0 : ℚ) ≤ (rows : ℚ) * (18 : ℚ) := by positivity
      linarith
    calc (16 : ℤ) = Int.ceil ((16 : ℚ)) := by norm_num
      _ ≤ _ := Int.ceil_le_ceil hq
  · simp only [encodeImage, List.length_append, List.length_replicate, pngSignature]
    simp

/-- Witness for `renderToPng_empty_grid` at the fully empty input. -/
theorem renderToPng_empty_grid_witness :
    (renderToPng [] 0 0 DEFAULT_OPTIONS).width = 16
    ∧ (renderToPng [] 0 0 DEFAULT_OPTIONS).height = 16
    ∧ 0 < (encodeImage (renderToPng [] 0 0 DEFAULT_OPTIONS)).length :=
  ⟨(renderToPng_empty_grid [] 0 0).1 rfl, (renderToPng_empty_grid [] 0 0).2.1 rfl,
    (renderToPng_empty_grid [] 0 0).2.2.2.2⟩

theorem getD_take_of_lt {α : Type} (l : List α) (d : α) {n m : Nat} (h : m < n) :
    (l.take n).getD m d = l.getD m d := by
  rw [List.getD_eq_getElem?_getD, List.getElem?_take_of_lt h, ← List.getD_eq_getElem?_getD]

theorem flatMap_congr_mem {α β : Type} {l : List α} {f g : α → List β}
    (h : ∀ a ∈ l, f a = g a) : l.flatMap f = l.flatMap g := by
  induction l with
  | nil => rfl
  | cons a l ih =>
    rw [List.flatMap_cons, List.flatMap_cons, h a (by simp),
      ih fun a ha => h a (by simp [ha])]

/-- C10: the renderer iterates only over the first
`min(rows, grid.length)` rows and, per row, the first
`min(cols, row.length)` cells, so it is insensitive to anything beyond
that window: rendering a grid equals rendering its truncation to
`rows` rows of at most `cols` cells, and short or ragged grids are
rendered totally, their missing cells simply ignored. -/
theorem renderToPng_truncates :
    ∀ (grid : List (List CellInfo)) (cols rows : Nat) (opts : RenderOptions),
      renderToPng grid cols rows opts
        = renderToPng ((grid.take rows).map fun row => row.take cols) cols rows opts := by
  intro grid cols rows opts
  have hlen : ((grid.take rows).map fun row => row.take cols).length
      = min rows grid.length := by
    simp [List.length_take]
  simp only [renderToPng, RenderOut.mk.injEq, hlen]
  refine ⟨trivial, trivial, ?_⟩
  rw [show min rows (min rows grid.length) = min rows grid.length by omega]
  refine congrArg _ (flatMap_congr_mem ?_)
  intro y hy
  rw [List.mem_range] at hy
  have hyr : y < rows := lt_of_lt_of_le hy (Nat.min_le_left _ _)
  have hyg : y < grid.length := lt_of_lt_of_le hy (Nat.min_le_right _ _)
  have hrow : ((grid.take rows).map fun row => row.take cols).getD y []
      = (grid.getD y []).take cols := by
    rw [List.getD_eq_getElem?_getD, List.getElem?_map, List.getElem?_take_of_lt hyr,
      List.getElem?_eq_getElem hyg, List.getD_eq_getElem?_getD,
      List.getElem?_eq_getElem hyg]
    rfl
  rw [hrow, List.length_take]
  rw [show min cols (min cols (grid.getD y []).length)
      = min cols (grid.getD y []).length by omega]
  refine flatMap_congr_mem ?_
  intro x hx
  rw [List.mem_range] at hx
  have hxc : x < cols := lt_of_lt_of_le hx (Nat.min_le_left _ _)
  rw [getD_take_of_lt _ _ hxc]

/-! ## Protocol-adapter input unescaping (`terminal_write` tool)

The tool applies five sequential global replacements to the
caller-supplied string: `\r`, `\n`, `\t`, then `\xHH`, then `\e`.  Each
is modelled by a scanner with JavaScript `String.replace` semantics:
leftmost match, non-overlapping, resume after the replacement (the
replacement text is not rescanned), advance one character on failure. -/

/-- `[0-9a-fA-F]`. -/
def isHexDigit (c : Char) : Bool :=
  decide (('0' ≤ c ∧ c ≤ '9') ∨ ('a' ≤ c ∧ c ≤ 'f') ∨ ('A' ≤ c ∧ c ≤ 'F'))

/-- One global replacement pass for a two-character pattern
`'\' followed by p`, replaced by the single character `r`. -/
def rep2 (p r : Char) : List Char → List Char
  | [] => []
  | [c] => [c]
  | a :: b :: rest =>
    if a = '\\' ∧ b = p then r :: rep2 p r rest
    else a :: rep2 p r (b :: rest)

/-- The global replacement pass for `/\\x([0-9a-fA-F]{2})/g`, replacing
a match by `String.fromCharCode(parseInt(hex, 16))`. -/
def repHex : List Char → List Char
  | a :: b :: c :: d :: rest =>
    if a = '\\' ∧ b = 'x' ∧ isHexDigit c ∧ isHexDigit d then
      Char.ofNat (16 * hexDigitVal c + hexDigitVal d) :: repHex rest
    else a :: repHex (b :: c :: d :: rest)
  | s => s

/-- The unescaping pipeline of the `terminal_write` tool, in source
order: `\r`, `\n`, `\t`, `\xHH`, `\e`. -/
def unescapeData (s : List Char) : List Char :=
  rep2 'e' (Char.ofNat 27)
    (repHex (rep2 't' '\t' (rep2 'n' '\n' (rep2 'r' '\r' s))))

/-- Spec-side single left-to-right scan translating the literal escapes
`\r`, `\n`, `\t` and well-formed `\xHH` to their control bytes and
leaving everything else — in particular malformed `\x` sequences —
unchanged. -/
def scanEscapes : List Char → List Char
  | '\\' :: 'r' :: s => '\r' :: scanEscapes s
  | '\\' :: 'n' :: s => '\n' :: scanEscapes s
  | '\\' :: 't' :: s => '\t' :: scanEscapes s
  | '\\' :: 'x' :: c :: d :: s =>
    if isHexDigit c ∧ isHexDigit d then
      Char.ofNat (16 * hexDigitVal c + hexDigitVal d) :: scanEscapes s
    else '\\' :: scanEscapes ('x' :: c :: d :: s)
  | '\\' :: 'x' :: s => '\\' :: scanEscapes ('x' :: s)
  | a :: s => a :: scanEscapes s
  | [] => []
termination_by s => s.length
decreasing_by all_goals simp [List.length_cons] <;> omega

theorem rep2_cons_ne (p r c : Char) (s : List Char) (hc : c ≠ '\\') :
    rep2 p r (c :: s) = c :: rep2 p r s := by
  cases s with
  | nil => rfl
  | cons b t => simp [rep2, hc]

theorem rep2_bs_ne (p r c : Char) (s : List Char) (hc : c ≠ p) :
    rep2 p r ('\\' :: c :: s) = '\\' :: rep2 p r (c :: s) := by
  simp [rep2, hc]

theorem rep2_bs_eq (p r : Char) (s : List Char) :
    rep2 p r ('\\' :: p :: s) = r :: rep2 p r s := by
  simp [rep2]

theorem rep2_head (p r : Char) (s : List Char) :
    (rep2 p r s).head? = s.head? ∨ (rep2 p r s).head? = some r := by
  cases s with
  | nil => left; rfl
  | cons a t =>
    cases t with
    | nil => left; rfl
    | cons b u =>
      by_cases h : a = '\\' ∧ b = p
      · right; simp [rep2, h]
      · left; rw [rep2, if_neg h]; rfl

theorem rep2_bs_head (p r : Char) (s : List Char)
    (h : ∀ a, s.head? = some a → a ≠ p) :
    rep2 p r ('\\' :: s) = '\\' :: rep2 p r s := by
  cases s with
  | nil => rfl
  | cons b t => exact rep2_bs_ne p r b t (h b rfl)

theorem repHex_cons_ne (c : Char) (s : List Char) (hc : c ≠ '\\') :
    repHex (c :: s) = c :: repHex s := by
  cases s with
  | nil => rfl
  | cons b t =>
    cases t with
    | nil => rfl
    | cons b2 u =>
      cases u with
      | nil => rfl
      | cons b3 v => simp [repHex, hc]

theorem repHex_bs_head (s : List Char) (h : ∀ a, s.head? = some a → a ≠ 'x') :
    repHex ('\\' :: s) = '\\' :: repHex s := by
  cases s with
  | nil => rfl
  | cons b t =>
    cases t with
    | nil => rfl
    | cons b2 u =>
      cases u with
      | nil => rfl
      | cons b3 v => simp [repHex, h b rfl]

theorem repHex_bs_x_hex (c d : Char) (s : List Char)
    (hc : isHexDigit c = true) (hd : isHexDigit d = true) :
    repHex ('\\' :: 'x' :: c :: d :: s)
      = Char.ofNat (16 * hexDigitVal c + hexDigitVal d) :: repHex s := by
  simp [repHex, hc, hd]

/-- Whether a list starts with two hex digits (the only way the `\xHH`
pass can match right after a leading backslash-x). -/
def hex2 : List Char → Bool
  | a :: b :: _ => isHexDigit a && isHexDigit b
  | _ => false

theorem repHex_bs_x_nohex2 (s : List Char) (h : hex2 s = false) :
    repHex ('\\' :: 'x' :: s) = '\\' :: repHex ('x' :: s) := by
  cases s with
  | nil => rfl
  | cons v1 t =>
    cases t with
    | nil => rfl
    | cons v2 u =>
      have hcond : ¬ (isHexDigit v1 = true ∧ isHexDigit v2 = true) := by
        simp only [hex2, Bool.and_eq_false_iff] at h
        rcases h with h | h <;> simp [h]
      simp only [repHex]
      rw [if_neg (by simpa using hcond)]

theorem rep2_hex2_false (p r : Char) (hr : isHexDigit r = false) (s : List Char)
    (h : hex2 s = false) : hex2 (rep2 p r s) = false := by
  cases s with
  | nil => rfl
  | cons a t =>
    cases t with
    | nil => rfl
    | cons b u =>
      by_cases hm : a = '\\' ∧ b = p
      · rw [rep2, if_pos hm]
        cases hvu : rep2 p r u with
        | nil => rfl
        | cons w v => simp [hex2, hr]
      · rw [rep2, if_neg hm]
        have hb : isHexDigit a = false ∨ isHexDigit b = false := by
          simpa only [hex2, Bool.and_eq_false_iff] using h
        cases hvu : rep2 p r (b :: u) with
        | nil => rfl
        | cons w v =>
          have hw : w = b ∨ w = r := by
            rcases rep2_head p r (b :: u) with hh | hh
            · left
              rw [hvu] at hh
              simpa using hh
            · right
              rw [hvu] at hh
              simpa using hh
          have hwf : isHexDigit a = false ∨ isHexDigit w = false := by
            rcases hb with h1 | h1
            · exact Or.inl h1
            · rcases hw with h2 | h2
              · exact Or.inr (h2 ▸ h1)
              · exact Or.inr (h2 ▸ hr)
          rcases hwf with h1 | h1 <;> simp [hex2, h1]

theorem rep2_head_of {p r : Char} {s : List Char} {c : Char} (h : s.head? = some c) :
    (rep2 p r s).head? = some c ∨ (rep2 p r s).head? = some r := by
  rcases rep2_head p r s with hh | hh
  · left; rw [hh, h]
  · right; exact hh

theorem scan_cons_ne (a : Char) (t : List Char) (ha : a ≠ '\\') :
    scanEscapes (a :: t) = a :: scanEscapes t :=
  scanEscapes.eq_6 a t (fun _ h _ => absurd h ha) (fun _ h _ => absurd h ha)
    (fun _ h _ => absurd h ha) (fun _ _ _ h _ => absurd h ha) (fun _ h _ => absurd h ha)

theorem scan_single (v : Char) : scanEscapes [v] = [v] := by
  rw [scanEscapes.eq_6 v [] (fun _ _ h => List.noConfusion h)
    (fun _ _ h => List.noConfusion h) (fun _ _ h => List.noConfusion h)
    (fun _ _ _ _ h => List.noConfusion h) (fun _ _ h => List.noConfusion h),
    scanEscapes.eq_7]

theorem scan_bs_other (b : Char) (t : List Char) (hr : b ≠ 'r') (hn : b ≠ 'n')
    (ht : b ≠ 't') (hx : b ≠ 'x') :
    scanEscapes ('\\' :: b :: t) = '\\' :: scanEscapes (b :: t) :=
  scanEscapes.eq_6 '\\' (b :: t)
    (fun _ _ h => by injection h with h1 _; exact hr h1)
    (fun _ _ h => by injection h with h1 _; exact hn h1)
    (fun _ _ h => by injection h with h1 _; exact ht h1)
    (fun _ _ _ _ h => by injection h with h1 _; exact hx h1)
    (fun _ _ h => by injection h with h1 _; exact hx h1)

/-- The first four replacement passes (`\r`, `\n`, `\t`, `\xHH`)
composed in source order. -/
def prePass (s : List Char) : List Char :=
  repHex (rep2 't' '\t' (rep2 'n' '\n' (rep2 'r' '\r' s)))

theorem isHexDigit_ne_bs {c : Char} (h : isHexDigit c = true) : c ≠ '\\' := by
  intro hc
  subst hc
  simp [isHexDigit] at h

theorem rep2_prefix_xcd (p r : Char) (hp : ('x' : Char) ≠ p) (c d : Char)
    (hc : c ≠ '\\') (hd : d ≠ '\\') (t : List Char) :
    rep2 p r ('\\' :: 'x' :: c :: d :: t) = '\\' :: 'x' :: c :: d :: rep2 p r t := by
  rw [rep2_bs_ne _ _ _ _ hp, rep2_cons_ne _ _ _ _ (by decide),
    rep2_cons_ne _ _ _ _ hc, rep2_cons_ne _ _ _ _ hd]

/-- The composed `\r`, `\n`, `\t`, `\xHH` passes act as the single
left-to-right scan `scanEscapes`: the passes neither destroy one
another's matches (the patterns are pairwise non-overlapping) nor create
new ones (the substituted control bytes are neither backslash, pattern
letter nor hex digit). -/
theorem prePass_eq_scanEscapes (s : List Char) : prePass s = scanEscapes s := by
  induction s using scanEscapes.induct with
  | case1 t ih =>
    rw [prePass, rep2_bs_eq 'r' '\r' t,
      rep2_cons_ne 'n' '\n' '\r' (rep2 'r' '\r' t) (by decide),
      rep2_cons_ne 't' '\t' '\r' (rep2 'n' '\n' (rep2 'r' '\r' t)) (by decide),
      repHex_cons_ne '\r' _ (by decide), ← prePass, ih, scanEscapes.eq_1]
  | case2 t ih =>
    rw [prePass, rep2_bs_ne 'r' '\r' 'n' t (by decide),
      rep2_cons_ne 'r' '\r' 'n' t (by decide),
      rep2_bs_eq 'n' '\n' (rep2 'r' '\r' t),
      rep2_cons_ne 't' '\t' '\n' (rep2 'n' '\n' (rep2 'r' '\r' t)) (by decide),
      repHex_cons_ne '\n' _ (by decide), ← prePass, ih, scanEscapes.eq_2]
  | case3 t ih =>
    rw [prePass, rep2_bs_ne 'r' '\r' 't' t (by decide),
      rep2_cons_ne 'r' '\r' 't' t (by decide),
      rep2_bs_ne 'n' '\n' 't' (rep2 'r' '\r' t) (by decide),
      rep2_cons_ne 'n' '\n' 't' (rep2 'r' '\r' t) (by decide),
      rep2_bs_eq 't' '\t' (rep2 'n' '\n' (rep2 'r' '\r' t)),
      repHex_cons_ne '\t' _ (by decide), ← prePass, ih, scanEscapes.eq_3]
  | case4 c d t hcd ih =>
    have hc := isHexDigit_ne_bs hcd.1
    have hd := isHexDigit_ne_bs hcd.2
    rw [prePass, rep2_prefix_xcd 'r' '\r' (by decide) c d hc hd t,
      rep2_prefix_xcd 'n' '\n' (by decide) c d hc hd (rep2 'r' '\r' t),
      rep2_prefix_xcd 't' '\t' (by decide) c d hc hd (rep2 'n' '\n' (rep2 'r' '\r' t)),
      repHex_bs_x_hex c d _ hcd.1 hcd.2, ← prePass, ih,
      scanEscapes.eq_4, if_pos hcd]
  | case5 c d t hcd ih =>
    have hstep : ∀ p r : Char, ('x' : Char) ≠ p →
        ∀ u : List Char, rep2 p r ('\\' :: 'x' :: u) = '\\' :: 'x' :: rep2 p r u := by
      intro p r hp u
      rw [rep2_bs_ne p r 'x' u hp, rep2_cons_ne p r 'x' u (by decide)]
    have hhex2 : hex2 (c :: d :: t) = false := by
      cases h1 : isHexDigit c
      · simp [hex2, h1]
      · cases h2 : isHexDigit d
        · simp [hex2, h2]
        · exact absurd ⟨h1, h2⟩ hcd
    have hV : hex2 (rep2 't' '\t' (rep2 'n' '\n' (rep2 'r' '\r' (c :: d :: t)))) = false :=
      rep2_hex2_false _ _ (by decide) _
        (rep2_hex2_false _ _ (by decide) _
          (rep2_hex2_false _ _ (by decide) _ hhex2))
    have hx3 : ∀ u : List Char,
        rep2 't' '\t' (rep2 'n' '\n' (rep2 'r' '\r' ('x' :: u)))
          = 'x' :: rep2 't' '\t' (rep2 'n' '\n' (rep2 'r' '\r' u)) := by
      intro u
      rw [rep2_cons_ne 'r' '\r' 'x' u (by decide),
        rep2_cons_ne 'n' '\n' 'x' (rep2 'r' '\r' u) (by decide),
        rep2_cons_ne 't' '\t' 'x' (rep2 'n' '\n' (rep2 'r' '\r' u)) (by decide)]
    rw [prePass, hstep 'r' '\r' (by decide) (c :: d :: t),
      hstep 'n' '\n' (by decide) (rep2 'r' '\r' (c :: d :: t)),
      hstep 't' '\t' (by decide) (rep2 'n' '\n' (rep2 'r' '\r' (c :: d :: t))),
      repHex_bs_x_nohex2 _ hV]
    rw [prePass, hx3] at ih
    rw [ih, scanEscapes.eq_4, if_neg hcd]
  | case6 t hshort ih =>
    cases t with
    | nil =>
      rw [scanEscapes.eq_5 _ hshort, scan_cons_ne 'x' [] (by decide), scanEscapes.eq_7]
      rfl
    | cons v u =>
      cases u with
      | nil =>
        rw [scanEscapes.eq_5 _ hshort, scan_cons_ne 'x' [v] (by decide), scan_single v]
        rfl
      | cons w z => exact absurd rfl (hshort v w z)
  | case7 a t hexr hexn hext hexx4 hexx2 ih =>
    by_cases ha : a = '\\'
    · subst ha
      cases t with
      | nil =>
        rw [scanEscapes.eq_6 '\\' [] hexr hexn hext hexx4 hexx2, scanEscapes.eq_7]
        rfl
      | cons b u =>
        have hbr : b ≠ 'r' := fun hb => hexr u rfl (by rw [hb])
        have hbn : b ≠ 'n' := fun hb => hexn u rfl (by rw [hb])
        have hbt : b ≠ 't' := fun hb => hext u rfl (by rw [hb])
        have hbx : b ≠ 'x' := fun hb => hexx2 u rfl (by rw [hb])
        have k0 : (b :: u).head? = some b := rfl
        have h1 : ∀ a', (rep2 'r' '\r' (b :: u)).head? = some a' → a' ≠ 'n' := by
          intro a' ha'
          rcases rep2_head_of (p := 'r') (r := '\r') k0 with hh | hh <;>
            rw [ha'] at hh <;> injection hh with hh <;> subst hh
          all_goals first | exact hbn | decide
        have h2 : ∀ a',
            (rep2 'n' '\n' (rep2 'r' '\r' (b :: u))).head? = some a' → a' ≠ 't' := by
          intro a' ha'
          rcases rep2_head_of (p := 'r') (r := '\r') k0 with hh | hh <;>
            rcases rep2_head_of (p := 'n') (r := '\n') hh with hh2 | hh2 <;>
              rw [ha'] at hh2 <;> injection hh2 with hh2 <;> subst hh2
          all_goals first | exact hbt | decide
        have h3 : ∀ a',
            (rep2 't' '\t' (rep2 'n' '\n' (rep2 'r' '\r' (b :: u)))).head? = some a'
              → a' ≠ 'x' := by
          intro a' ha'
          rcases rep2_head_of (p := 'r') (r := '\r') k0 with hh | hh <;>
            rcases rep2_head_of (p := 'n') (r := '\n') hh with hh2 | hh2 <;>
              rcases rep2_head_of (p := 't') (r := '\t') hh2 with hh3 | hh3 <;>
                rw [ha'] at hh3 <;> injection hh3 with hh3 <;> subst hh3
          all_goals first | exact hbx | decide
        rw [prePass, rep2_bs_ne 'r' '\r' b u hbr,
          rep2_bs_head 'n' '\n' (rep2 'r' '\r' (b :: u)) h1,
          rep2_bs_head 't' '\t' (rep2 'n' '\n' (rep2 'r' '\r' (b :: u))) h2,
          repHex_bs_head (rep2 't' '\t' (rep2 'n' '\n' (rep2 'r' '\r' (b :: u)))) h3,
          ← prePass, ih, scan_bs_other b u hbr hbn hbt hbx]
    · rw [prePass, rep2_cons_ne 'r' '\r' a t ha,
        rep2_cons_ne 'n' '\n' a (rep2 'r' '\r' t) ha,
        rep2_cons_ne 't' '\t' a (rep2 'n' '\n' (rep2 'r' '\r' t)) ha,
        repHex_cons_ne a _ ha, ← prePass, ih, scan_cons_ne a t ha]
  | case8 => rw [scanEscapes.eq_7]; rfl

/-- C3: the string handed to `write` by the `terminal_write` tool is the
caller's input with every literal `\r`, `\n`, `\t`, `\xHH` escape
translated to its control byte by a single left-to-right scan
(`scanEscapes`, which leaves malformed `\x` sequences unchanged),
followed by the translation of every `\`+`e` pair of the scanned result
— in particular of every literal `\e`, which the scan preserves — to
ESC (0x1b).  The concrete conjuncts exhibit each escape translated and
a malformed `\x` left unchanged. -/
theorem terminal_write_unescapes :
    (∀ s : List Char,
        unescapeData s = rep2 'e' (Char.ofNat 27) (scanEscapes s))
    ∧ unescapeData ['a', '\\', 'r', 'b'] = ['a', '\r', 'b']
    ∧ unescapeData ['\\', 'n'] = ['\n']
    ∧ unescapeData ['\\', 't'] = ['\t']
    ∧ unescapeData ['\\', 'e'] = [Char.ofNat 27]
    ∧ unescapeData ['\\', 'x', '4', '1'] = ['A']
    ∧ unescapeData ['\\', 'x', 'g', '1'] = ['\\', 'x', 'g', '1'] := by
  refine ⟨?_, by decide, by decide, by decide, by decide, by decide, by decide⟩
  intro s
  exact congrArg (rep2 'e' (Char.ofNat 27)) (prePass_eq_scanEscapes s)

end PtyMcp
